import Mathlib

/-!
Verification of the NoCpad AXI/ACE payload model and of the testbench
traffic generator / expected-response predictor / scoreboard verifier.

Sources embedded here:
* `src/src/include/axi_for_ace.h` — the `ace::axi4<Cfg>` payload structs
  (`AddrPayload`, `ReadPayload`, `WRespPayload`, `WritePayload`) with their
  width-parameterised fields and default constructors, and the
  `write::slave::nb_wread` two-channel acceptance protocol.
* `src/tb/tb_axi_con/axi_master.h` — the per-master transaction generator
  (`gen_new_rd_trans`, `gen_new_wr_trans`), the expected-response
  byte-walking predictors embedded in them, and the response verifiers
  (`verify_rd_resp`, `verify_wr_resp`) with their reorder and content scans.

Machine integers are modelled as `Nat`; truncations are modelled exactly
where the C++ code masks (`& 0xFF`, `& ((1<<w)-1)`).  The 8-bit lane
pointers (`unsigned char`) never exceed 255 for the lane counts admitted by
the theorems (`lanes ≤ 2^8`), so they are represented as `Nat` without a
wrap.  The `placed` field carried by the beat structures is ghost
instrumentation: it records, in placement order, the (lane, byte) pairs
OR-ed into the beat's `data` word by the source loop, and is used only to
state which bytes a beat carries; `data`, `wstrb`, `resp` and `last` are
computed exactly as in the source.
-/

namespace NoCpad

/-! ### Macros of tb/tb_axi_con/axi_master.h (lines 20-24) -/

def AXI_TID_NUM : Nat := 4

def AXI_BURST_NUM : Nat := 3

def AXI4_MAX_LEN : Nat := 4

def AXI4_MAX_INCR_LEN : Nat := 4

/-- Modelled from the spec: `my_log2c` lives in `tb/helper_non_synth.h`,
which is not under `src/`.  The spec uses `log2(master_lanes)` on
power-of-two lane counts and `rand(0..log2(MAX_LEN+1))` for WRAP lengths,
i.e. the ceiling base-2 logarithm. -/
def my_log2c (n : Nat) : Nat := Nat.clog 2 n

/-- Modelled from the spec: the AXI4 burst encoding (`axi4_encoding.h` is an
external matchlib header): FIXED = 0. -/
def AXBURST_FIXED : Nat := 0

/-- Modelled from the spec: AXI4 burst encoding, INCR = 1. -/
def AXBURST_INCR : Nat := 1

/-- Modelled from the spec: AXI4 burst encoding, WRAP = 2. -/
def AXBURST_WRAP : Nat := 2

/-! ### Testbench-side payload values (fields used by axi_master.h) -/

/-- The request fields of `axi4_::AddrPayload` used by the testbench. -/
structure TbAddr where
  id : Nat
  addr : Nat
  burst : Nat
  len : Nat
  size : Nat
deriving Repr, DecidableEq

/-- The fields of `axi4_::ReadPayload` used by the testbench. -/
structure TbRd where
  id : Nat
  data : Nat
  resp : Nat
  last : Bool
deriving Repr, DecidableEq

/-- The fields of `axi4_::WRespPayload` used by the testbench. -/
structure TbWResp where
  id : Nat
  resp : Nat
deriving Repr, DecidableEq

/-- A predicted write-data beat (`axi4_::WritePayload`): `data` and `wstrb`
are accumulated exactly as in the source; `placed` is the ghost log of
(lane, byte) pairs OR-ed into `data`, in placement order. -/
structure Beat where
  data : Nat
  wstrb : Nat
  last : Bool
  placed : List (Nat × Nat)
deriving Repr, DecidableEq

/-- A predicted read-response beat (`axi4_::ReadPayload`), with the ghost
`placed` log. -/
structure RdBeat where
  id : Nat
  data : Nat
  resp : Nat
  last : Bool
  placed : List (Nat × Nat)
deriving Repr, DecidableEq

/-! ### The expected-response byte walks

`rdLoop` embeds the `while(byte_count<bytes_total)` loop of
`gen_new_rd_trans` (axi_master.h lines 291-311): place `byte_count & 0xFF`
at lane `m_ptr`, advance the pointer (FIXED wraps inside the `1<<size`
window anchored at the initial lane, otherwise advance modulo the master
lane count), and close a beat whenever the pointer reaches an alignment
boundary or the transaction is exhausted.  The fuel argument `rem` counts
the remaining iterations, `bytes_total - byte_count` at every call. -/
def rdLoop (fixed : Bool) (lanes sz ini tid dst total : Nat) :
    Nat → Nat → Nat → Nat → List (Nat × Nat) → List RdBeat
  | 0, _, _, _, _ => []
  | rem + 1, bc, ptr, accD, accP =>
    let accD' := accD ||| ((bc &&& 255) <<< (ptr * 8))
    let accP' := accP ++ [(ptr, bc &&& 255)]
    let ptr' := if fixed then (ptr + 1) % (1 <<< sz) + ini else (ptr + 1) % lanes
    if ptr' % (1 <<< sz) = 0 ∨ bc + 1 = total then
      ⟨tid, accD', dst, decide (bc + 1 = total), accP'⟩ ::
        rdLoop fixed lanes sz ini tid dst total rem (bc + 1) ptr' 0 []
    else
      rdLoop fixed lanes sz ini tid dst total rem (bc + 1) ptr' accD' accP'

/-- Embeds the `while(byte_count<bytes_total)` loop of `gen_new_wr_trans`
(axi_master.h lines 379-415): the identical byte walk performed twice in
parallel, once at master granularity (`mPtr`, `mSz`, `mLanes`; beats pushed
to the injection queue) and once at slave granularity (`sPtr`, `sSz`,
`sLanes`; beats pushed to the per-destination scoreboard queue).  The last
byte of the transaction carries `MASTER_ID` instead of the byte counter. -/
def wrLoop (fixed : Bool) (mLanes sLanes mSz sSz mIni sIni mid total : Nat) :
    Nat → Nat → Nat → Nat → Nat → Nat → Nat → Nat →
    List (Nat × Nat) → List (Nat × Nat) → List Beat × List Beat
  | 0, _, _, _, _, _, _, _, _, _ => ([], [])
  | rem + 1, bc, mPtr, sPtr, mD, mW, sD, sW, mP, sP =>
    let b := (if bc = total - 1 then mid else bc) &&& 255
    let mD' := mD ||| (b <<< (mPtr * 8))
    let mW' := mW ||| (1 <<< mPtr)
    let mP' := mP ++ [(mPtr, b)]
    let sD' := sD ||| (b <<< (sPtr * 8))
    let sW' := sW ||| (1 <<< sPtr)
    let sP' := sP ++ [(sPtr, b)]
    let mPtr' := if fixed then (mPtr + 1) % (1 <<< mSz) + mIni else (mPtr + 1) % mLanes
    let sPtr' := if fixed then (sPtr + 1) % (1 <<< sSz) + sIni else (sPtr + 1) % sLanes
    let rest := wrLoop fixed mLanes sLanes mSz sSz mIni sIni mid total rem (bc + 1) mPtr' sPtr'
      (if mPtr' % (1 <<< mSz) = 0 ∨ bc + 1 = total then 0 else mD')
      (if mPtr' % (1 <<< mSz) = 0 ∨ bc + 1 = total then 0 else mW')
      (if sPtr' % (1 <<< sSz) = 0 ∨ bc + 1 = total then 0 else sD')
      (if sPtr' % (1 <<< sSz) = 0 ∨ bc + 1 = total then 0 else sW')
      (if mPtr' % (1 <<< mSz) = 0 ∨ bc + 1 = total then [] else mP')
      (if sPtr' % (1 <<< sSz) = 0 ∨ bc + 1 = total then [] else sP')
    (if mPtr' % (1 <<< mSz) = 0 ∨ bc + 1 = total then
       ⟨mD', mW', decide (bc + 1 = total), mP'⟩ :: rest.1
     else rest.1,
     if sPtr' % (1 <<< sSz) = 0 ∨ bc + 1 = total then
       ⟨sD', sW', decide (bc + 1 = total), sP'⟩ :: rest.2
     else rest.2)

/-- A generic single-pointer byte walk with an arbitrary byte source `v`.
`rdLoop` and each half of `wrLoop` are instances of it (proved below); the
closed form is established once, for `genWalk`. -/
def genWalk (fixed : Bool) (lanes sz ini : Nat) (v : Nat → Nat) (total : Nat) :
    Nat → Nat → Nat → Nat → Nat → List (Nat × Nat) → List Beat
  | 0, _, _, _, _, _ => []
  | rem + 1, bc, ptr, accD, accW, accP =>
    let accD' := accD ||| (v bc <<< (ptr * 8))
    let accW' := accW ||| (1 <<< ptr)
    let accP' := accP ++ [(ptr, v bc)]
    let ptr' := if fixed then (ptr + 1) % 2 ^ sz + ini else (ptr + 1) % lanes
    if ptr' % 2 ^ sz = 0 ∨ bc + 1 = total then
      ⟨accD', accW', decide (bc + 1 = total), accP'⟩ ::
        genWalk fixed lanes sz ini v total rem (bc + 1) ptr' 0 0 []
    else
      genWalk fixed lanes sz ini v total rem (bc + 1) ptr' accD' accW' accP'

/-! ### The transaction generator (axi_master.h lines 229-269, 316-372) -/

/-- The slave-side equivalent request built by `gen_new_rd_trans`
(axi_master.h lines 252-257): size and len rescaled when the master beat
width `1<<size` exceeds the slave lane count. -/
def rd_slave_equiv (sLanes : Nat) (m : TbAddr) : TbAddr where
  id := m.id
  size := if 1 <<< m.size > sLanes then my_log2c sLanes else m.size
  len := if 1 <<< m.size > sLanes then ((m.len + 1) <<< (m.size - my_log2c sLanes)) - 1
         else m.len
  burst := m.burst
  addr := m.addr

/-- `s_size` as computed by `gen_new_wr_trans` (axi_master.h line 355). -/
def wr_s_size (sLanes mSize : Nat) : Nat :=
  if 1 <<< mSize > sLanes then my_log2c sLanes else mSize

/-- `s_len` as computed by `gen_new_wr_trans` (axi_master.h line 358). -/
def wr_s_len (sLanes mSize mLen : Nat) : Nat :=
  if 1 <<< mSize > sLanes then ((mLen + 1) <<< (mSize - wr_s_size sLanes mSize)) - 1
  else mLen

/-- The slave-side equivalent request built by `gen_new_wr_trans`
(axi_master.h lines 361-366). -/
def wr_slave_equiv (sLanes : Nat) (m : TbAddr) : TbAddr where
  id := m.id
  addr := m.addr
  size := wr_s_size sLanes m.size
  len := wr_s_len sLanes m.size m.len
  burst := m.burst

/-- Result of one generator invocation: the master-side request, the
slave-side equivalent pushed to the scoreboard, and the updated running
address counter. -/
structure GenTrans where
  req : TbAddr
  req_s : TbAddr
  gen_addr : Nat
deriving Repr, DecidableEq

/-- `gen_new_rd_trans` (axi_master.h lines 229-247): the randomized request
fields.  `rnd i` is the result of the i-th `rand()` call of the invocation,
in program order: id, size, burst, len, the dead first address draw, and
the address coin flip. -/
def gen_new_rd_trans (mLanes sLanes : Nat) (rnd : Nat → Nat) (gen_rd_addr : Nat) : GenTrans :=
  let tid := rnd 0 % AXI_TID_NUM
  let size := (rnd 1 % my_log2c mLanes + 1) &&& ((1 <<< my_log2c mLanes) - 1)
  let burst := rnd 2 % AXI_BURST_NUM
  let len :=
    if burst = AXBURST_WRAP then (1 <<< (rnd 3 % my_log2c (AXI4_MAX_LEN + 1))) - 1
    else if burst = AXBURST_FIXED then rnd 3 % AXI4_MAX_LEN
    else if mLanes > sLanes then rnd 3 % (AXI4_MAX_INCR_LEN / (mLanes / sLanes))
    else rnd 3 % AXI4_MAX_INCR_LEN
  let addr := gen_rd_addr + (rnd 4 % mLanes &&& 1 <<< size)
  let addr := if rnd 5 % 2 = 1 then gen_rd_addr else gen_rd_addr + 0x10000
  let req : TbAddr := ⟨tid, addr, burst, len, size⟩
  { req := req, req_s := rd_slave_equiv sLanes req, gen_addr := gen_rd_addr + mLanes }

/-- `gen_new_wr_trans` (axi_master.h lines 316-366), request fields only;
identical draw order to the read generator. -/
def gen_new_wr_trans (mLanes sLanes : Nat) (rnd : Nat → Nat) (gen_wr_addr : Nat) : GenTrans :=
  let tid := rnd 0 % AXI_TID_NUM
  let size := (rnd 1 % my_log2c mLanes + 1) &&& ((1 <<< my_log2c mLanes) - 1)
  let burst := rnd 2 % AXI_BURST_NUM
  let len :=
    if burst = AXBURST_WRAP then (1 <<< (rnd 3 % my_log2c (AXI4_MAX_LEN + 1))) - 1
    else if burst = AXBURST_FIXED then rnd 3 % AXI4_MAX_LEN
    else if mLanes > sLanes then rnd 3 % (AXI4_MAX_INCR_LEN / (mLanes / sLanes))
    else rnd 3 % AXI4_MAX_INCR_LEN
  let addr := gen_wr_addr + (rnd 4 % mLanes &&& 1 <<< size)
  let addr := if rnd 5 % 2 = 1 then gen_wr_addr else gen_wr_addr + 0x10000
  let req : TbAddr := ⟨tid, addr, burst, len, size⟩
  { req := req, req_s := wr_slave_equiv sLanes req, gen_addr := gen_wr_addr + mLanes }

/-- The expected read response beats of `gen_new_rd_trans` (axi_master.h
lines 282-311): `bytes_total = (len+1) << size`, the lane pointer starts at
`addr % mLanes`, each beat carries the resolved destination in `resp`. -/
def rd_expected_beats (mLanes : Nat) (resolve : Nat → Nat) (req : TbAddr) : List RdBeat :=
  let bytes_total := (req.len + 1) <<< req.size
  let m_init_ptr := req.addr % mLanes
  rdLoop (decide (req.burst = AXBURST_FIXED)) mLanes req.size m_init_ptr req.id
    (resolve req.addr) bytes_total bytes_total 0 m_init_ptr 0 []

/-- The write-data beats of `gen_new_wr_trans` (axi_master.h lines 341-415):
first component: the master-granularity beats pushed to the injection
queue; second component: the slave-granularity beats pushed to the
per-destination scoreboard queue. -/
def wr_expected_beats (mLanes sLanes mid : Nat) (req : TbAddr) : List Beat × List Beat :=
  let bytes_total := (req.len + 1) <<< req.size
  let m_init_ptr := req.addr % mLanes
  let s_init_ptr := req.addr % sLanes
  let s_size := if 1 <<< req.size > sLanes then my_log2c sLanes else req.size
  wrLoop (decide (req.burst = AXBURST_FIXED)) mLanes sLanes req.size s_size
    m_init_ptr s_init_ptr mid bytes_total bytes_total 0 m_init_ptr s_init_ptr 0 0 0 0 [] []

/-! ### Reading the bytes back out of the predicted beats -/

/-- The byte of `data` at each recorded lane, in placement order. -/
def placedBytes (data : Nat) (placed : List (Nat × Nat)) : List Nat :=
  placed.map fun p => data >>> (p.1 * 8) % 256

/-- Concatenation, in generation order, of the bytes carried by a list of
write beats. -/
def beatBytes (bs : List Beat) : List Nat :=
  (bs.map fun b => placedBytes b.data b.placed).flatten

/-- Concatenation, in generation order, of the bytes carried by a list of
read beats. -/
def rdBeatBytes (bs : List RdBeat) : List Nat :=
  (bs.map fun b => placedBytes b.data b.placed).flatten

/-! ### Closed form of the byte walk -/

/-- The lane holding byte `k` of the walk: FIXED wraps inside the
`2^sz`-lane window anchored at the initial lane, INCR/WRAP advance modulo
the lane count. -/
def laneOf (fixed : Bool) (lanes sz ini k : Nat) : Nat :=
  if fixed then k % 2 ^ sz + ini else (ini + k) % lanes

/-- The lane of the first byte of beat `j`. -/
def laneBase (fixed : Bool) (lanes sz ini j : Nat) : Nat :=
  laneOf fixed lanes sz ini (j * 2 ^ sz)

/-- Little-endian packing of `n` chunks of width `w` bits. -/
def chunkW (w : Nat) (f : Nat → Nat) : Nat → Nat
  | 0 => 0
  | n + 1 => chunkW w f n + f n * 2 ^ (w * n)

/-- The fully assembled beat `j` of the walk. -/
def beatSpec (fixed : Bool) (lanes sz ini : Nat) (v : Nat → Nat) (total j : Nat) : Beat where
  data := chunkW 8 (fun t => v (j * 2 ^ sz + t)) (2 ^ sz) *
    2 ^ (laneBase fixed lanes sz ini j * 8)
  wstrb := chunkW 1 (fun _ => 1) (2 ^ sz) * 2 ^ laneBase fixed lanes sz ini j
  last := decide ((j + 1) * 2 ^ sz = total)
  placed := (List.range (2 ^ sz)).map fun t =>
    (laneBase fixed lanes sz ini j + t, v (j * 2 ^ sz + t))

/-- The `data` accumulator of the walk at the top of iteration `c`. -/
def midD (fixed : Bool) (lanes sz ini : Nat) (v : Nat → Nat) (c : Nat) : Nat :=
  chunkW 8 (fun t => v (c / 2 ^ sz * 2 ^ sz + t)) (c % 2 ^ sz) *
    2 ^ (laneBase fixed lanes sz ini (c / 2 ^ sz) * 8)

/-- The `wstrb` accumulator of the walk at the top of iteration `c`. -/
def midW (fixed : Bool) (lanes sz ini c : Nat) : Nat :=
  chunkW 1 (fun _ => 1) (c % 2 ^ sz) * 2 ^ laneBase fixed lanes sz ini (c / 2 ^ sz)

/-- The ghost placement log of the walk at the top of iteration `c`. -/
def midP (fixed : Bool) (lanes sz ini : Nat) (v : Nat → Nat) (c : Nat) : List (Nat × Nat) :=
  (List.range (c % 2 ^ sz)).map fun t =>
    (laneBase fixed lanes sz ini (c / 2 ^ sz) + t, v (c / 2 ^ sz * 2 ^ sz + t))

/-! ### The response verifier (axi_master.h lines 426-557) -/

/-- `eq_rd_data` (axi_master.h lines 561-569): id under the tag mask, data,
resp and last must match.  `idW` stands for `dnp::ID_W`. -/
def eq_rd_data (idW : Nat) (rcv sb : TbRd) : Bool :=
  rcv.id &&& (1 <<< idW - 1) == sb.id &&& (1 <<< idW - 1) &&
  rcv.data == sb.data && rcv.resp == sb.resp && rcv.last == sb.last

/-- `eq_wr_resp` (axi_master.h lines 572-578): id under the tag mask and
resp must match. -/
def eq_wr_resp (idW : Nat) (rcv sb : TbWResp) : Bool :=
  rcv.id &&& (1 <<< idW - 1) == sb.id &&& (1 <<< idW - 1) && rcv.resp == sb.resp

/-- The reorder check of `verify_rd_resp` (axi_master.h lines 431-446):
scan the order queue from the front for the first entry with the response's
id, classify 0 (destination matches `resp`), 1 (reordered) or 2 (no entry),
and erase the entry only when the response has `last` set. -/
def rd_reorder_scan (resolve : Nat → Nat) (rcv : TbRd) : List TbAddr → Nat × List TbAddr
  | [] => (2, [])
  | e :: rest =>
    if e.id = rcv.id then
      (if resolve e.addr = rcv.resp then 0 else 1,
       if rcv.last then rest else e :: rest)
    else
      let p := rd_reorder_scan resolve rcv rest
      (p.1, e :: p.2)

/-- The reorder check of `verify_wr_resp` (axi_master.h lines 499-513):
as for reads, but the entry is always erased (one B response per write). -/
def wr_reorder_scan (resolve : Nat → Nat) (rcv : TbWResp) : List TbAddr → Nat × List TbAddr
  | [] => (2, [])
  | e :: rest =>
    if e.id = rcv.id then
      (if resolve e.addr = rcv.resp then 0 else 1, rest)
    else
      let p := wr_reorder_scan resolve rcv rest
      (p.1, e :: p.2)

/-- The content scan of `verify_rd_resp` (axi_master.h lines 449-467): find
and remove the first predicted beat equal to the received one. -/
def rd_content_scan (idW : Nat) (rcv : TbRd) : List TbRd → Bool × List TbRd
  | [] => (false, [])
  | sb :: rest =>
    if eq_rd_data idW rcv sb then (true, rest)
    else
      let p := rd_content_scan idW rcv rest
      (p.1, sb :: p.2)

/-- The content scan of `verify_wr_resp` (axi_master.h lines 517-532); note
the source argument order `eq_wr_resp(sb, rcv)`. -/
def wr_content_scan (idW : Nat) (rcv : TbWResp) : List TbWResp → Bool × List TbWResp
  | [] => (false, [])
  | sb :: rest =>
    if eq_wr_resp idW sb rcv then (true, rest)
    else
      let p := wr_content_scan idW rcv rest
      (p.1, sb :: p.2)

/-- Outcome of one verifier invocation: the reorder status, whether a
prediction matched, whether `sc_assert(0)` fires, whether the not-found
error counter was incremented before it, whether the ejected-response
counter was incremented, and the updated queues. -/
structure RdVerdict where
  reorder : Nat
  found : Bool
  fatal : Bool
  err_inc : Bool
  ej_inc : Bool
  order_q : List TbAddr
  resp_q : List TbRd
deriving Repr, DecidableEq

/-- Outcome of `verify_wr_resp`. -/
structure WrVerdict where
  reorder : Nat
  found : Bool
  fatal : Bool
  err_inc : Bool
  ej_inc : Bool
  order_q : List TbAddr
  resp_q : List TbWResp
deriving Repr, DecidableEq

/-- `verify_rd_resp` (axi_master.h lines 426-492): reorder scan, content
scan, then the outcome ladder: not-found increments the error counter and
asserts; reorder status 2 or 1 asserts; otherwise the ejected counter is
incremented. -/
def verify_rd_resp (idW : Nat) (resolve : Nat → Nat) (oq : List TbAddr)
    (rq : List TbRd) (rcv : TbRd) : RdVerdict :=
  let ro := rd_reorder_scan resolve rcv oq
  let cs := rd_content_scan idW rcv rq
  if cs.1 = false then ⟨ro.1, false, true, true, false, ro.2, cs.2⟩
  else if ro.1 = 2 then ⟨ro.1, true, true, false, false, ro.2, cs.2⟩
  else if ro.1 = 1 then ⟨ro.1, true, true, false, false, ro.2, cs.2⟩
  else ⟨ro.1, true, false, false, true, ro.2, cs.2⟩

/-- `verify_wr_resp` (axi_master.h lines 494-557). -/
def verify_wr_resp (idW : Nat) (resolve : Nat → Nat) (oq : List TbAddr)
    (rq : List TbWResp) (rcv : TbWResp) : WrVerdict :=
  let ro := wr_reorder_scan resolve rcv oq
  let cs := wr_content_scan idW rcv rq
  if cs.1 = false then ⟨ro.1, false, true, true, false, ro.2, cs.2⟩
  else if ro.1 = 2 then ⟨ro.1, true, true, false, false, ro.2, cs.2⟩
  else if ro.1 = 1 then ⟨ro.1, true, true, false, false, ro.2, cs.2⟩
  else ⟨ro.1, true, false, false, true, ro.2, cs.2⟩

/-! ### The ace::axi4 payload model (axi_for_ace.h lines 39-392)

Widths are computed from the configuration exactly as the enum block of
lines 44-74.  A field of zero configured width is absent (`UIntOrEmpty`
yields the empty type); presence is modelled by `Option Nat`: `none` means
the field does not exist, `some x` a present field holding `x`. -/

/-- The template configuration `Cfg` of `ace::axi4` (external
`axi4_configs.h` supplies concrete instances; the fields read by
axi_for_ace.h are modelled). -/
structure AceCfg where
  dataWidth : Nat
  addrWidth : Nat
  idWidth : Nat
  useVariableBeatSize : Nat
  useBurst : Nat
  useFixedBurst : Nat
  useWrapBurst : Nat
  maxBurstSize : Nat
  useLast : Nat
  useCache : Nat
  useWriteStrobes : Nat
  useWriteResponses : Nat
  useACE : Nat
  aUserWidth : Nat
  wUserWidth : Nat
  bUserWidth : Nat
  rUserWidth : Nat
deriving Repr, DecidableEq

def BID_WIDTH (c : AceCfg) : Nat := if c.useWriteResponses = 0 then 0 else c.idWidth

/-- `ALEN_WIDTH`; `nvhls::log2_ceil` is the ceiling logarithm. -/
def ALEN_WIDTH (c : AceCfg) : Nat := if c.useBurst ≠ 0 then Nat.clog 2 c.maxBurstSize else 0

def ASIZE_WIDTH (c : AceCfg) : Nat := if c.useVariableBeatSize ≠ 0 then 3 else 0

def LAST_WIDTH (c : AceCfg) : Nat := if c.useLast ≠ 0 then 1 else 0

/-- `CACHE_WIDTH`; `Enc::ARCACHE::_WIDTH = 4`. -/
def CACHE_WIDTH (c : AceCfg) : Nat := if c.useCache ≠ 0 then 4 else 0

/-- `BURST_WIDTH`; `Enc::AXBURST::_WIDTH = 2`. -/
def BURST_WIDTH (c : AceCfg) : Nat :=
  if c.useBurst ≠ 0 ∧ (c.useFixedBurst ≠ 0 ∨ c.useWrapBurst ≠ 0) then 2 else 0

def WSTRB_WIDTH (c : AceCfg) : Nat := if c.useWriteStrobes ≠ 0 then c.dataWidth >>> 3 else 0

/-- `RESP_WIDTH`; `Enc::XRESP::_WIDTH = 2`, plus 2 under ACE. -/
def RESP_WIDTH (c : AceCfg) : Nat := if c.useACE ≠ 0 then 2 + 2 else 2

def AUSER_WIDTH (c : AceCfg) : Nat := c.aUserWidth

def WUSER_WIDTH (c : AceCfg) : Nat := c.wUserWidth

def BUSER_WIDTH (c : AceCfg) : Nat := if c.useWriteResponses = 0 then 0 else c.bUserWidth

def RUSER_WIDTH (c : AceCfg) : Nat := c.rUserWidth

def C_SNOOP_WIDTH (c : AceCfg) : Nat := if c.useACE ≠ 0 then 4 else 0

def C_DOMAIN_WIDTH (c : AceCfg) : Nat := if c.useACE ≠ 0 then 2 else 0

def C_BARRIER_WIDTH (c : AceCfg) : Nat := if c.useACE ≠ 0 then 2 else 0

def C_UNIQUE_WIDTH (c : AceCfg) : Nat := if c.useACE ≠ 0 then 1 else 0

/-- `ace::axi4<Cfg>::AddrPayload` field values; `none` = absent. -/
structure AceAddrPayload where
  id : Option Nat
  addr : Option Nat
  burst : Option Nat
  len : Option Nat
  size : Option Nat
  cache : Option Nat
  auser : Option Nat
  snoop : Option Nat
  domain : Option Nat
  barrier : Option Nat
  unique : Option Nat
deriving Repr, DecidableEq

/-- `ace::axi4<Cfg>::ReadPayload` field values. -/
structure AceReadPayload where
  id : Option Nat
  data : Option Nat
  resp : Option Nat
  last : Option Nat
  ruser : Option Nat
deriving Repr, DecidableEq

/-- `ace::axi4<Cfg>::WRespPayload` field values. -/
structure AceWRespPayload where
  id : Option Nat
  resp : Option Nat
  buser : Option Nat
deriving Repr, DecidableEq

/-- `ace::axi4<Cfg>::WritePayload` field values. -/
structure AceWritePayload where
  data : Option Nat
  last : Option Nat
  wstrb : Option Nat
  wuser : Option Nat
deriving Repr, DecidableEq

/-- The default constructor `AddrPayload()` (axi_for_ace.h lines 125-147):
every present field is assigned 0.  Construction is a total function:
it cannot fail. -/
def mkAddrPayload (c : AceCfg) : AceAddrPayload where
  id := if c.idWidth > 0 then some 0 else none
  addr := some 0
  len := if ALEN_WIDTH c > 0 then some 0 else none
  size := if ASIZE_WIDTH c > 0 then some 0 else none
  burst := if BURST_WIDTH c > 0 then some 0 else none
  cache := if CACHE_WIDTH c > 0 then some 0 else none
  auser := if AUSER_WIDTH c > 0 then some 0 else none
  snoop := if C_SNOOP_WIDTH c > 0 then some 0 else none
  domain := if C_DOMAIN_WIDTH c > 0 then some 0 else none
  barrier := if C_BARRIER_WIDTH c > 0 then some 0 else none
  unique := if C_UNIQUE_WIDTH c > 0 then some 0 else none

/-- The default constructor `ReadPayload()` (axi_for_ace.h lines 234-243). -/
def mkReadPayload (c : AceCfg) : AceReadPayload where
  id := if c.idWidth > 0 then some 0 else none
  data := some 0
  resp := some 0
  last := if LAST_WIDTH c > 0 then some 0 else none
  ruser := if RUSER_WIDTH c > 0 then some 0 else none

/-- The default constructor `WRespPayload()` (axi_for_ace.h lines 295-301).
The guard in the source is `ID_WIDTH > 0` while the field's own width is
`BID_WIDTH`; `BID_WIDTH > 0` implies `ID_WIDTH > 0`, so the present field
is always assigned 0. -/
def mkWRespPayload (c : AceCfg) : AceWRespPayload where
  id := if BID_WIDTH c > 0 then some 0 else none
  resp := some 0
  buser := if BUSER_WIDTH c > 0 then some 0 else none

/-- The default constructor `WritePayload()` (axi_for_ace.h lines 344-352):
`data`, `last` and `wuser` are zeroed, but `wstrb = ~0` — a present strobe
field is initialised to all ones, `2^WSTRB_WIDTH - 1`. -/
def mkWritePayload (c : AceCfg) : AceWritePayload where
  data := some 0
  last := if LAST_WIDTH c > 0 then some 0 else none
  wstrb := if WSTRB_WIDTH c > 0 then some (2 ^ WSTRB_WIDTH c - 1) else none
  wuser := if WUSER_WIDTH c > 0 then some 0 else none

/-- The `some`-valued fields of a default `AddrPayload`. -/
def addrPayloadFields (p : AceAddrPayload) : List Nat :=
  [p.id, p.addr, p.burst, p.len, p.size, p.cache, p.auser,
   p.snoop, p.domain, p.barrier, p.unique].filterMap id

/-- The `some`-valued fields of a default `ReadPayload`. -/
def readPayloadFields (p : AceReadPayload) : List Nat :=
  [p.id, p.data, p.resp, p.last, p.ruser].filterMap id

/-- The `some`-valued fields of a default `WRespPayload`. -/
def wrespPayloadFields (p : AceWRespPayload) : List Nat :=
  [p.id, p.resp, p.buser].filterMap id

/-- The `some`-valued fields of a default `WritePayload` other than
`wstrb`. -/
def writePayloadFieldsNoStrb (p : AceWritePayload) : List Nat :=
  [p.data, p.last, p.wuser].filterMap id

/-- A concrete configuration: 64-bit data, strobes enabled — the AXI4
standard shape used by the testbench. -/
def cfgEx : AceCfg where
  dataWidth := 64
  addrWidth := 32
  idWidth := 4
  useVariableBeatSize := 1
  useBurst := 1
  useFixedBurst := 1
  useWrapBurst := 1
  maxBurstSize := 16
  useLast := 1
  useCache := 1
  useWriteStrobes := 1
  useWriteResponses := 1
  useACE := 0
  aUserWidth := 0
  wUserWidth := 0
  bUserWidth := 0
  rUserWidth := 0

/-! ### write::slave::nb_wread (axi_for_ace.h lines 572-610) -/

/-- Result of one `nb_wread` call: the returned Bool, the values written to
the out-parameters (`none` when the source leaves them unassigned), the
updated `got_waddr` / `stored_waddr` state, and the remaining AW and W
channel queues. -/
structure NbWread where
  ret : Bool
  addr : Option AceAddrPayload
  data : Option AceWritePayload
  got_waddr : Bool
  stored_waddr : AceAddrPayload
  awq : List AceAddrPayload
  wq : List AceWritePayload

/-- `write::slave::nb_wread` (axi_for_ace.h lines 592-610): while no
pending address, try to pop AW (fail → return false); otherwise reuse the
stored address; then try to pop W: success consumes the data beat, clears
`got_waddr` and returns true, failure returns false keeping the address. -/
def nb_wread (got_waddr : Bool) (stored_waddr : AceAddrPayload)
    (awq : List AceAddrPayload) (wq : List AceWritePayload) : NbWread :=
  if got_waddr = false then
    match awq with
    | [] => ⟨false, none, none, false, stored_waddr, awq, wq⟩
    | a :: arest =>
      match wq with
      | [] => ⟨false, some a, none, true, a, arest, wq⟩
      | d :: wrest => ⟨true, some a, some d, false, a, arest, wrest⟩
  else
    match wq with
    | [] => ⟨false, some stored_waddr, none, true, stored_waddr, awq, wq⟩
    | d :: wrest => ⟨true, some stored_waddr, some d, false, stored_waddr, awq, wrest⟩

/-! ## Theorems -/

/-! ### Shared helper lemmas -/

theorem my_log2c_two_pow (L : Nat) : my_log2c (2 ^ L) = L := by
  simpa [my_log2c] using Nat.clog_pow 2 L (by norm_num)

theorem size_expr_range (L r : Nat) (hL : 1 ≤ L) :
    1 ≤ (r % L + 1) &&& (2 ^ L - 1) ∧ (r % L + 1) &&& (2 ^ L - 1) ≤ L := by
  rw [Nat.and_pow_two_sub_one_eq_mod]
  have h1 : r % L < L := Nat.mod_lt _ (by omega)
  have h2 : r % L + 1 < 2 ^ L := lt_of_le_of_lt (by omega) (Nat.lt_two_pow L)
  rw [Nat.mod_eq_of_lt h2]
  omega

theorem rd_reorder_scan_found (resolve : Nat → Nat) (rcv : TbRd) (e : TbAddr)
    (post : List TbAddr) :
    ∀ pre : List TbAddr, (∀ x ∈ pre, x.id ≠ rcv.id) → e.id = rcv.id →
      rd_reorder_scan resolve rcv (pre ++ e :: post) =
        ((if resolve e.addr = rcv.resp then 0 else 1),
         if rcv.last then pre ++ post else pre ++ e :: post)
  | [], _, he => by
    simp [rd_reorder_scan, he]
  | x :: pre, hpre, he => by
    have hx : ¬ x.id = rcv.id := hpre x (by simp)
    have ih := rd_reorder_scan_found resolve rcv e post pre
      (fun y hy => hpre y (by simp [hy])) he
    simp only [List.cons_append, rd_reorder_scan, if_neg hx, List.append_eq]
    rw [ih]
    by_cases hl : rcv.last <;> simp [hl]

theorem rd_reorder_scan_not_found (resolve : Nat → Nat) (rcv : TbRd) :
    ∀ q : List TbAddr, (∀ x ∈ q, x.id ≠ rcv.id) →
      rd_reorder_scan resolve rcv q = (2, q)
  | [], _ => rfl
  | x :: q, hq => by
    have hx : ¬ x.id = rcv.id := hq x (by simp)
    have ih := rd_reorder_scan_not_found resolve rcv q (fun y hy => hq y (by simp [hy]))
    simp [rd_reorder_scan, if_neg hx, ih]

theorem wr_reorder_scan_found (resolve : Nat → Nat) (rcv : TbWResp) (e : TbAddr)
    (post : List TbAddr) :
    ∀ pre : List TbAddr, (∀ x ∈ pre, x.id ≠ rcv.id) → e.id = rcv.id →
      wr_reorder_scan resolve rcv (pre ++ e :: post) =
        ((if resolve e.addr = rcv.resp then 0 else 1), pre ++ post)
  | [], _, he => by
    simp [wr_reorder_scan, he]
  | x :: pre, hpre, he => by
    have hx : ¬ x.id = rcv.id := hpre x (by simp)
    have ih := wr_reorder_scan_found resolve rcv e post pre
      (fun y hy => hpre y (by simp [hy])) he
    simp [wr_reorder_scan, if_neg hx, ih]

theorem wr_reorder_scan_not_found (resolve : Nat → Nat) (rcv : TbWResp) :
    ∀ q : List TbAddr, (∀ x ∈ q, x.id ≠ rcv.id) →
      wr_reorder_scan resolve rcv q = (2, q)
  | [], _ => rfl
  | x :: q, hq => by
    have hx : ¬ x.id = rcv.id := hq x (by simp)
    have ih := wr_reorder_scan_not_found resolve rcv q (fun y hy => hq y (by simp [hy]))
    simp [wr_reorder_scan, if_neg hx, ih]

theorem rd_content_scan_false_iff (idW : Nat) (rcv : TbRd) :
    ∀ q : List TbRd, (rd_content_scan idW rcv q).1 = false ↔
      ∀ sb ∈ q, eq_rd_data idW rcv sb = false
  | [] => by simp [rd_content_scan]
  | sb :: q => by
    by_cases h : eq_rd_data idW rcv sb
    · simp [rd_content_scan, h]
    · simp [rd_content_scan, h, rd_content_scan_false_iff idW rcv q,
        Bool.not_eq_true]

theorem wr_content_scan_false_iff (idW : Nat) (rcv : TbWResp) :
    ∀ q : List TbWResp, (wr_content_scan idW rcv q).1 = false ↔
      ∀ sb ∈ q, eq_wr_resp idW sb rcv = false
  | [] => by simp [wr_content_scan]
  | sb :: q => by
    by_cases h : eq_wr_resp idW sb rcv
    · simp [wr_content_scan, h]
    · simp [wr_content_scan, h, wr_content_scan_false_iff idW rcv q,
        Bool.not_eq_true]

theorem rd_reorder_scan_cases (resolve : Nat → Nat) (rcv : TbRd) :
    ∀ q : List TbAddr, (rd_reorder_scan resolve rcv q).1 = 0 ∨
      (rd_reorder_scan resolve rcv q).1 = 1 ∨ (rd_reorder_scan resolve rcv q).1 = 2
  | [] => by simp [rd_reorder_scan]
  | e :: q => by
    by_cases h : e.id = rcv.id
    · by_cases h2 : resolve e.addr = rcv.resp <;> simp [rd_reorder_scan, h, h2]
    · simpa [rd_reorder_scan, h] using rd_reorder_scan_cases resolve rcv q

theorem wr_reorder_scan_cases (resolve : Nat → Nat) (rcv : TbWResp) :
    ∀ q : List TbAddr, (wr_reorder_scan resolve rcv q).1 = 0 ∨
      (wr_reorder_scan resolve rcv q).1 = 1 ∨ (wr_reorder_scan resolve rcv q).1 = 2
  | [] => by simp [wr_reorder_scan]
  | e :: q => by
    by_cases h : e.id = rcv.id
    · by_cases h2 : resolve e.addr = rcv.resp <;> simp [wr_reorder_scan, h, h2]
    · simpa [wr_reorder_scan, h] using wr_reorder_scan_cases resolve rcv q

theorem optZero_mem (l : List (Option Nat))
    (h : ∀ o ∈ l, o = none ∨ o = some 0) : ∀ v ∈ l.filterMap id, v = 0 := by
  intro v hv
  rw [List.mem_filterMap] at hv
  obtain ⟨o, ho, hov⟩ := hv
  rcases h o ho with rfl | rfl
  · cases hov
  · cases hov; rfl

theorem optZero_if (w : Nat) :
    (if w > 0 then (some 0 : Option Nat) else none) = none ∨
    (if w > 0 then (some 0 : Option Nat) else none) = some 0 := by
  split_ifs <;> simp

/-! ### Arithmetic helpers for the byte walk -/

theorem chunkW_lt (w : Nat) (f : Nat → Nat) :
    ∀ n, (∀ t, t < n → f t < 2 ^ w) → chunkW w f n < 2 ^ (w * n)
  | 0, _ => by simp [chunkW]
  | n + 1, hf => by
    have ih := chunkW_lt w f n (fun t ht => hf t (by omega))
    have hfn : f n < 2 ^ w := hf n (by omega)
    have h1 : chunkW w f n + f n * 2 ^ (w * n) <
        2 ^ (w * n) + f n * 2 ^ (w * n) := by omega
    have h2 : 2 ^ (w * n) + f n * 2 ^ (w * n) ≤ 2 ^ w * 2 ^ (w * n) := by
      have : 1 + f n ≤ 2 ^ w := by omega
      calc 2 ^ (w * n) + f n * 2 ^ (w * n) = (1 + f n) * 2 ^ (w * n) := by ring
        _ ≤ 2 ^ w * 2 ^ (w * n) :=
          Nat.mul_le_mul_right _ this
    calc chunkW w f (n + 1) = chunkW w f n + f n * 2 ^ (w * n) := rfl
      _ < 2 ^ w * 2 ^ (w * n) := lt_of_lt_of_le h1 h2
      _ = 2 ^ (w * (n + 1)) := by rw [show w * (n + 1) = w + w * n from by ring, pow_add]

theorem chunkW_congr (w : Nat) (f g : Nat → Nat) :
    ∀ n, (∀ t, t < n → f t = g t) → chunkW w f n = chunkW w g n
  | 0, _ => rfl
  | n + 1, h => by
    have ih := chunkW_congr w f g n (fun t ht => h t (by omega))
    simp [chunkW, ih, h n (by omega)]

theorem chunkW8_extract (f : Nat → Nat) :
    ∀ n t, (∀ i, i < n → f i < 256) → t < n →
      chunkW 8 f n / 2 ^ (t * 8) % 256 = f t
  | 0, t, _, ht => by omega
  | n + 1, t, hf, ht => by
    rcases Nat.lt_or_ge t n with htn | htn
    · have ih := chunkW8_extract f n t (fun i hi => hf i (by omega)) htn
      obtain ⟨d, hd⟩ : ∃ d, n = t + d + 1 := ⟨n - t - 1, by omega⟩
      have hsplit : f n * 2 ^ (8 * n) = f n * 2 ^ (8 * (d + 1)) * 2 ^ (t * 8) := by
        rw [Nat.mul_assoc, ← pow_add]
        congr 2
        omega
      have hdiv : chunkW 8 f (n + 1) / 2 ^ (t * 8) =
          chunkW 8 f n / 2 ^ (t * 8) + f n * 2 ^ (8 * (d + 1)) := by
        show (chunkW 8 f n + f n * 2 ^ (8 * n)) / 2 ^ (t * 8) = _
        rw [hsplit, Nat.add_mul_div_right _ _ (Nat.two_pow_pos _)]
      have hmul : f n * 2 ^ (8 * (d + 1)) = f n * 2 ^ (8 * d) * 256 := by
        have : (256 : Nat) = 2 ^ 8 := by norm_num
        rw [this, Nat.mul_assoc, ← pow_add, Nat.mul_succ]
      rw [hdiv, hmul, Nat.add_mul_mod_self_right, ih]
    · have htn' : t = n := by omega
      subst htn'
      have hlt : chunkW 8 f t < 2 ^ (t * 8) := by
        have := chunkW_lt 8 f t (fun i hi => by
          have : (256 : Nat) = 2 ^ 8 := by norm_num
          rw [← this]
          exact hf i (by omega))
        rwa [Nat.mul_comm 8 t] at this
      have hdiv : chunkW 8 f (t + 1) / 2 ^ (t * 8) = f t := by
        show (chunkW 8 f t + f t * 2 ^ (8 * t)) / 2 ^ (t * 8) = f t
        rw [Nat.mul_comm 8 t, Nat.add_mul_div_right _ _ (Nat.two_pow_pos _),
          Nat.div_eq_of_lt hlt, Nat.zero_add]
      rw [hdiv, Nat.mod_eq_of_lt (hf t (by omega))]

theorem lor_shift_small (a v m : Nat) (h : a < 2 ^ m) :
    a ||| v <<< m = a + v * 2 ^ m := by
  rw [Nat.shiftLeft_eq, Nat.lor_comm, Nat.mul_comm v, ← Nat.mul_add_lt_is_or h v]
  omega

theorem dvd_mod_le (d x n : Nat) (hd : 0 < d) (hdx : d ∣ x) (hdn : d ∣ n)
    (hx : x < n) : x ≤ n - d := by
  have h1 : d ∣ n - x := Nat.dvd_sub' hdn hdx
  have h2 : 0 < n - x := by omega
  have h3 := Nat.le_of_dvd h2 h1
  omega

theorem mod_div_succ_ne (m c : Nat) (hm : 1 < m) (h : (c + 1) % m ≠ 0) :
    (c + 1) % m = c % m + 1 ∧ (c + 1) / m = c / m := by
  have hm0 : 0 < m := by omega
  have hcm : c % m < m := Nat.mod_lt _ hm0
  have hceq : c + 1 = c % m + 1 + m * (c / m) := by
    have := Nat.div_add_mod c m
    omega
  have hne : c % m + 1 ≠ m := by
    intro hcontra
    have : (c + 1) % m = 0 := by
      rw [hceq, Nat.add_mul_mod_self_left, hcontra, Nat.mod_self]
    exact h this
  have hmod : (c + 1) % m = c % m + 1 := by
    rw [hceq, Nat.add_mul_mod_self_left, Nat.mod_eq_of_lt (by omega)]
  refine ⟨hmod, ?_⟩
  exact Nat.succ_div_of_not_dvd (by
    intro hdvd
    exact h (Nat.mod_eq_zero_of_dvd hdvd))

theorem mod_div_succ_eq (m c : Nat) (hm : 0 < m) (h : (c + 1) % m = 0) :
    c % m = m - 1 ∧ (c + 1) / m = c / m + 1 ∧ c + 1 = (c / m + 1) * m := by
  have hdvd : m ∣ c + 1 := Nat.dvd_of_mod_eq_zero h
  have hdiv : (c + 1) / m = c / m + 1 := Nat.succ_div_of_dvd hdvd
  have hfull : c + 1 = m * ((c + 1) / m) := (Nat.mul_div_cancel' hdvd).symm
  have hc1 : c + 1 = m * (c / m + 1) := by rw [← hdiv]; exact hfull
  have hcm : c % m = m - 1 := by
    have h2 : c = m * (c / m) + (m - 1) := by
      have : m * (c / m + 1) = m * (c / m) + m := by ring
      omega
    calc c % m = (m * (c / m) + (m - 1)) % m := by rw [← h2]
      _ = (m - 1) % m := by rw [Nat.mul_add_mod]
      _ = m - 1 := Nat.mod_eq_of_lt (by omega)
  exact ⟨hcm, hdiv, by rw [hc1]; ring⟩

/-! ### Lane-pointer lemmas -/

theorem laneBase_dvd (fixed : Bool) (L sz ini j : Nat) (hsz : sz ≤ L)
    (hini : 2 ^ sz ∣ ini) : 2 ^ sz ∣ laneBase fixed (2 ^ L) sz ini j := by
  have hLd : 2 ^ sz ∣ 2 ^ L := pow_dvd_pow 2 hsz
  cases fixed
  · show 2 ^ sz ∣ (ini + j * 2 ^ sz) % 2 ^ L
    exact (Nat.dvd_mod_iff hLd).mpr (Nat.dvd_add hini (dvd_mul_left _ _))
  · show 2 ^ sz ∣ j * 2 ^ sz % 2 ^ sz + ini
    rw [Nat.mul_mod_left]
    simpa using hini

theorem laneOf_decomp (fixed : Bool) (L sz ini : Nat) (hsz : sz ≤ L)
    (hini : 2 ^ sz ∣ ini) (k : Nat) :
    laneOf fixed (2 ^ L) sz ini k =
      laneBase fixed (2 ^ L) sz ini (k / 2 ^ sz) + k % 2 ^ sz := by
  have hp : (0 : Nat) < 2 ^ sz := Nat.two_pow_pos sz
  have hLd : 2 ^ sz ∣ 2 ^ L := pow_dvd_pow 2 hsz
  cases fixed
  · show (ini + k) % 2 ^ L = (ini + k / 2 ^ sz * 2 ^ sz) % 2 ^ L + k % 2 ^ sz
    have hdA : 2 ^ sz ∣ ini + k / 2 ^ sz * 2 ^ sz :=
      Nat.dvd_add hini (dvd_mul_left _ _)
    have hAm : 2 ^ sz ∣ (ini + k / 2 ^ sz * 2 ^ sz) % 2 ^ L :=
      (Nat.dvd_mod_iff hLd).mpr hdA
    have hAlt : (ini + k / 2 ^ sz * 2 ^ sz) % 2 ^ L < 2 ^ L :=
      Nat.mod_lt _ (Nat.two_pow_pos L)
    have hk : k % 2 ^ sz < 2 ^ sz := Nat.mod_lt _ hp
    have h2 : 2 ^ sz ≤ 2 ^ L := Nat.pow_le_pow_right (by omega) hsz
    have hle : (ini + k / 2 ^ sz * 2 ^ sz) % 2 ^ L + k % 2 ^ sz < 2 ^ L := by
      have h1 := dvd_mod_le (2 ^ sz) ((ini + k / 2 ^ sz * 2 ^ sz) % 2 ^ L) (2 ^ L)
        hp hAm hLd hAlt
      omega
    have hsplit : ini + k = ini + k / 2 ^ sz * 2 ^ sz + k % 2 ^ sz := by
      have := Nat.div_add_mod' k (2 ^ sz)
      omega
    rw [hsplit, ← Nat.mod_add_mod, Nat.mod_eq_of_lt hle]
  · show k % 2 ^ sz + ini = k / 2 ^ sz * 2 ^ sz % 2 ^ sz + ini + k % 2 ^ sz
    rw [Nat.mul_mod_left]
    omega

theorem laneOf_mod (fixed : Bool) (L sz ini : Nat) (hsz : sz ≤ L)
    (hini : 2 ^ sz ∣ ini) (k : Nat) :
    laneOf fixed (2 ^ L) sz ini k % 2 ^ sz = k % 2 ^ sz := by
  have hp : (0 : Nat) < 2 ^ sz := Nat.two_pow_pos sz
  rw [laneOf_decomp fixed L sz ini hsz hini k]
  obtain ⟨q, hq⟩ := laneBase_dvd fixed L sz ini (k / 2 ^ sz) hsz hini
  rw [hq, Nat.mul_add_mod, Nat.mod_eq_of_lt (Nat.mod_lt _ hp)]

theorem laneOf_step (fixed : Bool) (L sz ini : Nat) (hsz : sz ≤ L)
    (hini : 2 ^ sz ∣ ini) (k : Nat) :
    (if fixed then (laneOf fixed (2 ^ L) sz ini k + 1) % 2 ^ sz + ini
     else (laneOf fixed (2 ^ L) sz ini k + 1) % 2 ^ L) =
      laneOf fixed (2 ^ L) sz ini (k + 1) := by
  obtain ⟨q, hq⟩ := hini
  cases fixed
  · show ((ini + k) % 2 ^ L + 1) % 2 ^ L = (ini + (k + 1)) % 2 ^ L
    rw [Nat.mod_add_mod, Nat.add_assoc]
  · show (k % 2 ^ sz + ini + 1) % 2 ^ sz + ini = (k + 1) % 2 ^ sz + ini
    congr 1
    have h1 : k % 2 ^ sz + ini + 1 = k % 2 ^ sz + 1 + q * 2 ^ sz := by
      rw [hq]; ring
    rw [h1, Nat.add_mul_mod_self_right, Nat.mod_add_mod]

/-! ### Mid-state accumulator lemmas -/

theorem midD_lt (fixed : Bool) (L sz ini : Nat) (v : Nat → Nat) (hsz : sz ≤ L)
    (hini : 2 ^ sz ∣ ini) (hv : ∀ k, v k < 256) (c : Nat) :
    midD fixed (2 ^ L) sz ini v c < 2 ^ (laneOf fixed (2 ^ L) sz ini c * 8) := by
  have h1 : chunkW 8 (fun t => v (c / 2 ^ sz * 2 ^ sz + t)) (c % 2 ^ sz) <
      2 ^ (8 * (c % 2 ^ sz)) :=
    chunkW_lt 8 _ _ (fun t ht => by
      have : (256 : Nat) = 2 ^ 8 := by norm_num
      rw [← this]
      exact hv _)
  have h2 : midD fixed (2 ^ L) sz ini v c <
      2 ^ (8 * (c % 2 ^ sz)) * 2 ^ (laneBase fixed (2 ^ L) sz ini (c / 2 ^ sz) * 8) :=
    (Nat.mul_lt_mul_right (Nat.two_pow_pos _)).mpr h1
  calc midD fixed (2 ^ L) sz ini v c <
      2 ^ (8 * (c % 2 ^ sz)) * 2 ^ (laneBase fixed (2 ^ L) sz ini (c / 2 ^ sz) * 8) := h2
    _ = 2 ^ (laneOf fixed (2 ^ L) sz ini c * 8) := by
      rw [← pow_add]
      congr 1
      rw [laneOf_decomp fixed L sz ini hsz hini c]
      ring

theorem midW_lt (fixed : Bool) (L sz ini : Nat) (hsz : sz ≤ L)
    (hini : 2 ^ sz ∣ ini) (c : Nat) :
    midW fixed (2 ^ L) sz ini c < 2 ^ laneOf fixed (2 ^ L) sz ini c := by
  have h1 : chunkW 1 (fun _ => 1) (c % 2 ^ sz) < 2 ^ (1 * (c % 2 ^ sz)) :=
    chunkW_lt 1 _ _ (fun t ht => by norm_num)
  have h2 : midW fixed (2 ^ L) sz ini c <
      2 ^ (1 * (c % 2 ^ sz)) * 2 ^ laneBase fixed (2 ^ L) sz ini (c / 2 ^ sz) :=
    (Nat.mul_lt_mul_right (Nat.two_pow_pos _)).mpr h1
  calc midW fixed (2 ^ L) sz ini c <
      2 ^ (1 * (c % 2 ^ sz)) * 2 ^ laneBase fixed (2 ^ L) sz ini (c / 2 ^ sz) := h2
    _ = 2 ^ laneOf fixed (2 ^ L) sz ini c := by
      rw [← pow_add]
      congr 1
      rw [laneOf_decomp fixed L sz ini hsz hini c]
      ring

theorem midD_bump (fixed : Bool) (L sz ini : Nat) (v : Nat → Nat) (hsz : sz ≤ L)
    (hini : 2 ^ sz ∣ ini) (c : Nat) :
    chunkW 8 (fun t => v (c / 2 ^ sz * 2 ^ sz + t)) (c % 2 ^ sz + 1) *
      2 ^ (laneBase fixed (2 ^ L) sz ini (c / 2 ^ sz) * 8) =
    midD fixed (2 ^ L) sz ini v c +
      v c * 2 ^ (laneOf fixed (2 ^ L) sz ini c * 8) := by
  have hfc : c / 2 ^ sz * 2 ^ sz + c % 2 ^ sz = c := Nat.div_add_mod' c (2 ^ sz)
  show (chunkW 8 (fun t => v (c / 2 ^ sz * 2 ^ sz + t)) (c % 2 ^ sz) +
      v (c / 2 ^ sz * 2 ^ sz + c % 2 ^ sz) * 2 ^ (8 * (c % 2 ^ sz))) *
      2 ^ (laneBase fixed (2 ^ L) sz ini (c / 2 ^ sz) * 8) = _
  rw [hfc, Nat.add_mul, Nat.mul_assoc, ← pow_add]
  congr 2
  rw [laneOf_decomp fixed L sz ini hsz hini c]
  ring

theorem midW_bump (fixed : Bool) (L sz ini : Nat) (hsz : sz ≤ L)
    (hini : 2 ^ sz ∣ ini) (c : Nat) :
    chunkW 1 (fun _ => 1) (c % 2 ^ sz + 1) *
      2 ^ laneBase fixed (2 ^ L) sz ini (c / 2 ^ sz) =
    midW fixed (2 ^ L) sz ini c + 1 * 2 ^ laneOf fixed (2 ^ L) sz ini c := by
  show (chunkW 1 (fun _ => 1) (c % 2 ^ sz) + 1 * 2 ^ (1 * (c % 2 ^ sz))) *
      2 ^ laneBase fixed (2 ^ L) sz ini (c / 2 ^ sz) = _
  rw [Nat.add_mul, Nat.one_mul, Nat.one_mul, ← pow_add]
  congr 2
  rw [laneOf_decomp fixed L sz ini hsz hini c]
  ring

theorem midP_bump (fixed : Bool) (L sz ini : Nat) (v : Nat → Nat) (hsz : sz ≤ L)
    (hini : 2 ^ sz ∣ ini) (c : Nat) :
    (List.range (c % 2 ^ sz + 1)).map (fun t =>
        (laneBase fixed (2 ^ L) sz ini (c / 2 ^ sz) + t, v (c / 2 ^ sz * 2 ^ sz + t))) =
    midP fixed (2 ^ L) sz ini v c ++ [(laneOf fixed (2 ^ L) sz ini c, v c)] := by
  have hfc : c / 2 ^ sz * 2 ^ sz + c % 2 ^ sz = c := Nat.div_add_mod' c (2 ^ sz)
  rw [List.range_succ, List.map_append]
  unfold midP
  congr 1
  simp only [List.map_cons, List.map_nil]
  rw [hfc, laneOf_decomp fixed L sz ini hsz hini c]

/-! ### Closed form of the generic byte walk -/

theorem genWalk_spec (fixed : Bool) (L sz ini : Nat) (v : Nat → Nat) (total : Nat)
    (hsz : sz ≤ L) (hini : 2 ^ sz ∣ ini) (hv : ∀ k, v k < 256)
    (htot : 2 ^ sz ∣ total) :
    ∀ rem c, c + rem = total →
      genWalk fixed (2 ^ L) sz ini v total rem c (laneOf fixed (2 ^ L) sz ini c)
        (midD fixed (2 ^ L) sz ini v c) (midW fixed (2 ^ L) sz ini c)
        (midP fixed (2 ^ L) sz ini v c) =
      (List.range' (c / 2 ^ sz) (total / 2 ^ sz - c / 2 ^ sz)).map
        (beatSpec fixed (2 ^ L) sz ini v total) := by
  intro rem
  induction rem with
  | zero =>
    intro c hc
    have hct : c = total := by omega
    subst hct
    simp [genWalk]
  | succ rem ih =>
    intro c hc
    have hp : (0 : Nat) < 2 ^ sz := Nat.two_pow_pos sz
    have hc' : c < total := by omega
    simp only [genWalk]
    rw [lor_shift_small _ _ _ (midD_lt fixed L sz ini v hsz hini hv c)]
    rw [lor_shift_small _ _ _ (midW_lt fixed L sz ini hsz hini c)]
    rw [laneOf_step fixed L sz ini hsz hini c]
    have hciff : (laneOf fixed (2 ^ L) sz ini (c + 1) % 2 ^ sz = 0 ∨ c + 1 = total) ↔
        (c + 1) % 2 ^ sz = 0 := by
      rw [laneOf_mod fixed L sz ini hsz hini]
      constructor
      · rintro (h | h)
        · exact h
        · rw [h]
          exact Nat.mod_eq_zero_of_dvd htot
      · exact fun h => Or.inl h
    by_cases hcl : (c + 1) % 2 ^ sz = 0
    · rw [if_pos (hciff.mpr hcl)]
      obtain ⟨hcm, hdiv, hc1⟩ := mod_div_succ_eq (2 ^ sz) c hp hcl
      have hcount : c % 2 ^ sz + 1 = 2 ^ sz := by omega
      have hD0 : midD fixed (2 ^ L) sz ini v (c + 1) = 0 := by simp [midD, hcl, chunkW]
      have hW0 : midW fixed (2 ^ L) sz ini (c + 1) = 0 := by simp [midW, hcl, chunkW]
      have hP0 : midP fixed (2 ^ L) sz ini v (c + 1) = [] := by simp [midP, hcl]
      have ihc := ih (c + 1) (by omega)
      rw [hD0, hW0, hP0] at ihc
      rw [ihc, hdiv]
      have hq : c / 2 ^ sz < total / 2 ^ sz := by
        have h2 : total = total / 2 ^ sz * 2 ^ sz := (Nat.div_mul_cancel htot).symm
        have h3 : (c / 2 ^ sz + 1) * 2 ^ sz ≤ total / 2 ^ sz * 2 ^ sz := by
          rw [← h2]
          omega
        have h4 := Nat.le_of_mul_le_mul_right h3 hp
        omega
      rw [show total / 2 ^ sz - c / 2 ^ sz = total / 2 ^ sz - (c / 2 ^ sz + 1) + 1
        from by omega]
      rw [List.range'_succ]
      simp only [List.map_cons]
      congr 1
      have hbD := midD_bump fixed L sz ini v hsz hini c
      have hbW := midW_bump fixed L sz ini hsz hini c
      have hbP := midP_bump fixed L sz ini v hsz hini c
      rw [hcount] at hbD hbW hbP
      simp only [beatSpec, Beat.mk.injEq]
      refine ⟨hbD.symm, hbW.symm, ?_, hbP.symm⟩
      rw [← hc1]
    · rw [if_neg (fun h => hcl (hciff.mp h))]
      have hm1 : 1 < 2 ^ sz := by
        rcases Nat.eq_zero_or_pos sz with h0 | h0
        · exfalso
          apply hcl
          simp [h0, Nat.mod_one]
        · exact Nat.one_lt_two_pow (by omega)
      obtain ⟨hmod, hdiv⟩ := mod_div_succ_ne (2 ^ sz) c hm1 hcl
      have hD : midD fixed (2 ^ L) sz ini v c +
          v c * 2 ^ (laneOf fixed (2 ^ L) sz ini c * 8) =
          midD fixed (2 ^ L) sz ini v (c + 1) := by
        show _ = chunkW 8 (fun t => v ((c + 1) / 2 ^ sz * 2 ^ sz + t)) ((c + 1) % 2 ^ sz) *
          2 ^ (laneBase fixed (2 ^ L) sz ini ((c + 1) / 2 ^ sz) * 8)
        rw [hdiv, hmod]
        exact (midD_bump fixed L sz ini v hsz hini c).symm
      have hW : midW fixed (2 ^ L) sz ini c + 1 * 2 ^ laneOf fixed (2 ^ L) sz ini c =
          midW fixed (2 ^ L) sz ini (c + 1) := by
        show _ = chunkW 1 (fun _ => 1) ((c + 1) % 2 ^ sz) *
          2 ^ laneBase fixed (2 ^ L) sz ini ((c + 1) / 2 ^ sz)
        rw [hdiv, hmod]
        exact (midW_bump fixed L sz ini hsz hini c).symm
      have hP : midP fixed (2 ^ L) sz ini v c ++
          [(laneOf fixed (2 ^ L) sz ini c, v c)] =
          midP fixed (2 ^ L) sz ini v (c + 1) := by
        show _ = (List.range ((c + 1) % 2 ^ sz)).map (fun t =>
          (laneBase fixed (2 ^ L) sz ini ((c + 1) / 2 ^ sz) + t,
            v ((c + 1) / 2 ^ sz * 2 ^ sz + t)))
        rw [hdiv, hmod]
        exact (midP_bump fixed L sz ini v hsz hini c).symm
      rw [hD, hW, hP]
      have ihc := ih (c + 1) (by omega)
      rw [ihc, hdiv]

theorem genWalk_closed (fixed : Bool) (L sz ini : Nat) (v : Nat → Nat) (total : Nat)
    (hsz : sz ≤ L) (hini : 2 ^ sz ∣ ini) (hlt : ini < 2 ^ L)
    (hv : ∀ k, v k < 256) (htot : 2 ^ sz ∣ total) :
    genWalk fixed (2 ^ L) sz ini v total total 0 ini 0 0 [] =
      (List.range (total / 2 ^ sz)).map (beatSpec fixed (2 ^ L) sz ini v total) := by
  have h := genWalk_spec fixed L sz ini v total hsz hini hv htot total 0 (by omega)
  have h0 : laneOf fixed (2 ^ L) sz ini 0 = ini := by
    cases fixed
    · show (ini + 0) % 2 ^ L = ini
      rw [Nat.add_zero, Nat.mod_eq_of_lt hlt]
    · show 0 % 2 ^ sz + ini = ini
      simp
  have hD0 : midD fixed (2 ^ L) sz ini v 0 = 0 := by simp [midD, chunkW]
  have hW0 : midW fixed (2 ^ L) sz ini 0 = 0 := by simp [midW, chunkW]
  have hP0 : midP fixed (2 ^ L) sz ini v 0 = [] := by simp [midP]
  rw [h0, hD0, hW0, hP0] at h
  rw [h]
  simp [List.range_eq_range']

/-! ### From beats back to bytes -/

theorem placedBytes_beatSpec (fixed : Bool) (L sz ini : Nat) (v : Nat → Nat)
    (total j : Nat) (hv : ∀ k, v k < 256) :
    placedBytes (beatSpec fixed (2 ^ L) sz ini v total j).data
      (beatSpec fixed (2 ^ L) sz ini v total j).placed =
    (List.range (2 ^ sz)).map fun t => v (j * 2 ^ sz + t) := by
  unfold placedBytes beatSpec
  rw [List.map_map]
  apply List.map_congr_left
  intro t ht
  rw [List.mem_range] at ht
  dsimp only [Function.comp_apply]
  rw [Nat.shiftRight_eq_div_pow]
  rw [show (2 : Nat) ^ ((laneBase fixed (2 ^ L) sz ini j + t) * 8) =
    2 ^ (t * 8) * 2 ^ (laneBase fixed (2 ^ L) sz ini j * 8) from by
      rw [← pow_add]; congr 1; ring]
  rw [Nat.mul_div_mul_right _ _ (Nat.two_pow_pos _)]
  exact chunkW8_extract _ (2 ^ sz) t (fun i _ => hv _) ht

theorem flatten_range_chunks (g : Nat → Nat) :
    ∀ q n, ((List.range q).map fun j =>
        (List.range n).map fun t => g (j * n + t)).flatten =
      (List.range (q * n)).map g
  | 0, n => by simp
  | q + 1, n => by
    rw [List.range_succ, List.map_append, List.flatten_append,
      flatten_range_chunks g q n]
    simp only [List.map_cons, List.map_nil, List.flatten_cons, List.flatten_nil,
      List.append_nil]
    rw [show (q + 1) * n = q * n + n from by ring, List.range_add, List.map_append]
    congr 1
    rw [List.map_map]
    rfl

theorem beatBytes_spec (fixed : Bool) (L sz ini : Nat) (v : Nat → Nat) (total : Nat)
    (hv : ∀ k, v k < 256) :
    beatBytes ((List.range (total / 2 ^ sz)).map
        (beatSpec fixed (2 ^ L) sz ini v total)) =
      (List.range (total / 2 ^ sz * 2 ^ sz)).map v := by
  unfold beatBytes
  rw [List.map_map]
  have hfun : (fun b => placedBytes b.data b.placed) ∘
      beatSpec fixed (2 ^ L) sz ini v total =
      fun j => (List.range (2 ^ sz)).map fun t => v (j * 2 ^ sz + t) := by
    funext j
    exact placedBytes_beatSpec fixed L sz ini v total j hv
  rw [hfun, flatten_range_chunks]

/-! ### The source loops are instances of the generic walk -/

theorem rdLoop_eq_genWalk (fixed : Bool) (lanes sz ini tid dst total : Nat) :
    ∀ rem bc ptr accD accW accP,
      rdLoop fixed lanes sz ini tid dst total rem bc ptr accD accP =
      (genWalk fixed lanes sz ini (fun k => k &&& 255) total rem bc ptr
          accD accW accP).map
        (fun b => ⟨tid, b.data, dst, b.last, b.placed⟩)
  | 0, _, _, _, _, _ => rfl
  | rem + 1, bc, ptr, accD, accW, accP => by
    simp only [rdLoop, genWalk, Nat.one_shiftLeft]
    by_cases h : (if fixed then (ptr + 1) % 2 ^ sz + ini else (ptr + 1) % lanes) %
        2 ^ sz = 0 ∨ bc + 1 = total
    · rw [if_pos h, if_pos h]
      simp only [List.map_cons]
      rw [rdLoop_eq_genWalk fixed lanes sz ini tid dst total rem (bc + 1) _ 0 0 []]
    · rw [if_neg h, if_neg h]
      exact rdLoop_eq_genWalk fixed lanes sz ini tid dst total rem (bc + 1) _ _
        (accW ||| 2 ^ ptr) _

theorem wrLoop_eq_genWalk (fixed : Bool) (mLanes sLanes mSz sSz mIni sIni mid total : Nat) :
    ∀ rem bc mPtr sPtr mD mW sD sW mP sP,
      wrLoop fixed mLanes sLanes mSz sSz mIni sIni mid total rem bc mPtr sPtr
        mD mW sD sW mP sP =
      (genWalk fixed mLanes mSz mIni (fun k => (if k = total - 1 then mid else k) &&& 255)
        total rem bc mPtr mD mW mP,
       genWalk fixed sLanes sSz sIni (fun k => (if k = total - 1 then mid else k) &&& 255)
        total rem bc sPtr sD sW sP)
  | 0, _, _, _, _, _, _, _, _, _ => rfl
  | rem + 1, bc, mPtr, sPtr, mD, mW, sD, sW, mP, sP => by
    simp only [wrLoop, genWalk, Nat.one_shiftLeft]
    rw [wrLoop_eq_genWalk fixed mLanes sLanes mSz sSz mIni sIni mid total rem (bc + 1)
      _ _ _ _ _ _ _ _]
    by_cases hm : (if fixed then (mPtr + 1) % 2 ^ mSz + mIni else (mPtr + 1) % mLanes) %
        2 ^ mSz = 0 ∨ bc + 1 = total <;>
      by_cases hs : (if fixed then (sPtr + 1) % 2 ^ sSz + sIni else (sPtr + 1) % sLanes) %
          2 ^ sSz = 0 ∨ bc + 1 = total <;>
        simp [hm, hs]

theorem rdBeatBytes_map (tid dst : Nat) (l : List Beat) :
    rdBeatBytes (l.map fun b => ⟨tid, b.data, dst, b.last, b.placed⟩) =
      beatBytes l := by
  unfold rdBeatBytes beatBytes
  rw [List.map_map]
  rfl

theorem and_255_eq_mod (k : Nat) : k &&& 255 = k % 256 := by
  have h : (255 : Nat) = 2 ^ 8 - 1 := by norm_num
  have h2 : (2 : Nat) ^ 8 = 256 := by norm_num
  rw [h, Nat.and_pow_two_sub_one_eq_mod, h2]

theorem and_255_lt (k : Nat) : k &&& 255 < 256 := by
  rw [and_255_eq_mod]
  exact Nat.mod_lt _ (by norm_num)

/-! ### Claim C1 -/

/-- C1: for every read transaction shape the generator can emit (size in
`[1, log2 lanes]`, any burst in {FIXED, INCR, WRAP}, any len, an address
aligned to the master lane count — which C10 shows is all of them — and
lane counts up to `2^8`, within the range of the 8-bit lane pointer),
concatenating in generation order the bytes placed into the predicted
response beats yields, at byte offset `k`, the value `k mod 256` — FIXED
bursts (whose lane pointer wraps inside the `1<<size` window) included. -/
theorem C1_rd_predicted_bytes (L sz len burst addr tid : Nat) (resolve : Nat → Nat)
    (h1 : 1 ≤ sz) (h2 : sz ≤ L) (hL : L ≤ 8) (hb : burst < 3) (ha : 2 ^ L ∣ addr) :
    rdBeatBytes (rd_expected_beats (2 ^ L) resolve ⟨tid, addr, burst, len, sz⟩) =
      (List.range ((len + 1) <<< sz)).map (fun k => k % 256) := by
  have hz : addr % 2 ^ L = 0 := Nat.mod_eq_zero_of_dvd ha
  have htoteq : (len + 1) <<< sz = (len + 1) * 2 ^ sz := Nat.shiftLeft_eq _ _
  have htot : 2 ^ sz ∣ (len + 1) <<< sz := by
    rw [htoteq]
    exact dvd_mul_left _ _
  unfold rd_expected_beats
  dsimp only
  rw [hz]
  rw [rdLoop_eq_genWalk (decide (burst = AXBURST_FIXED)) (2 ^ L) sz 0 tid
    (resolve addr) ((len + 1) <<< sz) ((len + 1) <<< sz) 0 0 0 0 []]
  rw [rdBeatBytes_map]
  rw [genWalk_closed (decide (burst = AXBURST_FIXED)) L sz 0 (fun k => k &&& 255)
    ((len + 1) <<< sz) h2 (dvd_zero _) (Nat.two_pow_pos L) (fun k => and_255_lt k) htot]
  rw [beatBytes_spec _ L sz 0 _ _ (fun k => and_255_lt k)]
  rw [Nat.div_mul_cancel htot]
  apply List.map_congr_left
  intro k _
  exact and_255_eq_mod k

/-- C1 witness: four lanes, a two-beat INCR-equivalent walk. -/
theorem C1_rd_predicted_bytes_witness :
    rdBeatBytes (rd_expected_beats (2 ^ 2) (fun _ => 0) ⟨0, 0, 0, 1, 1⟩) =
      (List.range ((1 + 1) <<< 1)).map (fun k => k % 256) :=
  C1_rd_predicted_bytes 2 1 1 0 0 0 (fun _ => 0) (by norm_num) (by norm_num)
    (by norm_num) (by norm_num) (dvd_zero _)

/-! ### Claim C3 -/

/-- C3: for every write transaction shape the generator can emit,
concatenating the predicted slave-side data beats in generation order
reproduces exactly the byte sequence of the master-side data beats: both
equal the sequence whose byte `k` is `k mod 256`, except the final byte of
the transaction, which is `MASTER_ID mod 256` in both representations. -/
theorem C3_wr_byte_equivalence (LM LS mSz len burst addr mid tid : Nat)
    (h1 : 1 ≤ mSz) (h2 : mSz ≤ LM) (hLM : LM ≤ 8) (hLS : LS ≤ 8) (hb : burst < 3)
    (ha : 2 ^ LM ∣ addr) :
    beatBytes (wr_expected_beats (2 ^ LM) (2 ^ LS) mid ⟨tid, addr, burst, len, mSz⟩).1 =
      (List.range ((len + 1) <<< mSz)).map
        (fun k => (if k = (len + 1) <<< mSz - 1 then mid else k) % 256) ∧
    beatBytes (wr_expected_beats (2 ^ LM) (2 ^ LS) mid ⟨tid, addr, burst, len, mSz⟩).2 =
      (List.range ((len + 1) <<< mSz)).map
        (fun k => (if k = (len + 1) <<< mSz - 1 then mid else k) % 256) := by
  have hz : addr % 2 ^ LM = 0 := Nat.mod_eq_zero_of_dvd ha
  have htoteq : (len + 1) <<< mSz = (len + 1) * 2 ^ mSz := Nat.shiftLeft_eq _ _
  have htotm : 2 ^ mSz ∣ (len + 1) <<< mSz := by
    rw [htoteq]
    exact dvd_mul_left _ _
  have hs_eq : (if 1 <<< mSz > 2 ^ LS then my_log2c (2 ^ LS) else mSz) =
      if 2 ^ LS < 2 ^ mSz then LS else mSz := by
    rw [Nat.one_shiftLeft, my_log2c_two_pow]
  have hsle : (if 2 ^ LS < 2 ^ mSz then LS else mSz) ≤ LS := by
    split_ifs with h
    · exact le_refl LS
    · exact (Nat.pow_le_pow_iff_right (a := 2) (by norm_num)).mp (Nat.le_of_not_lt h)
  have hsm : (if 2 ^ LS < 2 ^ mSz then LS else mSz) ≤ mSz := by
    split_ifs with h
    · exact Nat.le_of_lt ((Nat.pow_lt_pow_iff_right (a := 2) (by norm_num)).mp h)
    · exact le_refl mSz
  have hsinidvd : 2 ^ (if 2 ^ LS < 2 ^ mSz then LS else mSz) ∣ addr % 2 ^ LS :=
    (Nat.dvd_mod_iff (pow_dvd_pow 2 hsle)).mpr
      (dvd_trans (pow_dvd_pow 2 (le_trans hsm h2)) ha)
  have hsinilt : addr % 2 ^ LS < 2 ^ LS := Nat.mod_lt _ (Nat.two_pow_pos LS)
  have htots : 2 ^ (if 2 ^ LS < 2 ^ mSz then LS else mSz) ∣ (len + 1) <<< mSz :=
    dvd_trans (pow_dvd_pow 2 hsm) htotm
  have hv : ∀ k : Nat,
      (if k = (len + 1) <<< mSz - 1 then mid else k) &&& 255 < 256 :=
    fun k => and_255_lt _
  unfold wr_expected_beats
  dsimp only
  rw [hz, hs_eq]
  rw [wrLoop_eq_genWalk (decide (burst = AXBURST_FIXED)) (2 ^ LM) (2 ^ LS) mSz
    (if 2 ^ LS < 2 ^ mSz then LS else mSz) 0 (addr % 2 ^ LS) mid ((len + 1) <<< mSz)
    ((len + 1) <<< mSz) 0 0 (addr % 2 ^ LS) 0 0 0 0 [] []]
  dsimp only
  constructor
  · rw [genWalk_closed (decide (burst = AXBURST_FIXED)) LM mSz 0
      (fun k => (if k = (len + 1) <<< mSz - 1 then mid else k) &&& 255)
      ((len + 1) <<< mSz) h2 (dvd_zero _) (Nat.two_pow_pos LM) hv htotm]
    rw [beatBytes_spec _ LM mSz 0 _ _ hv]
    rw [Nat.div_mul_cancel htotm]
    apply List.map_congr_left
    intro k _
    exact and_255_eq_mod _
  · rw [genWalk_closed (decide (burst = AXBURST_FIXED)) LS
      (if 2 ^ LS < 2 ^ mSz then LS else mSz) (addr % 2 ^ LS)
      (fun k => (if k = (len + 1) <<< mSz - 1 then mid else k) &&& 255)
      ((len + 1) <<< mSz) hsle hsinidvd hsinilt hv htots]
    rw [beatBytes_spec _ LS (if 2 ^ LS < 2 ^ mSz then LS else mSz) (addr % 2 ^ LS) _ _ hv]
    rw [Nat.div_mul_cancel htots]
    apply List.map_congr_left
    intro k _
    exact and_255_eq_mod _

/-- C3 witness: four master lanes downsized to two slave lanes. -/
theorem C3_wr_byte_equivalence_witness :
    beatBytes (wr_expected_beats (2 ^ 2) (2 ^ 1) 3 ⟨0, 0, 1, 0, 2⟩).1 =
      (List.range ((0 + 1) <<< 2)).map
        (fun k => (if k = (0 + 1) <<< 2 - 1 then 3 else k) % 256) ∧
    beatBytes (wr_expected_beats (2 ^ 2) (2 ^ 1) 3 ⟨0, 0, 1, 0, 2⟩).2 =
      (List.range ((0 + 1) <<< 2)).map
        (fun k => (if k = (0 + 1) <<< 2 - 1 then 3 else k) % 256) :=
  C3_wr_byte_equivalence 2 1 2 0 1 0 3 0 (by norm_num) (by norm_num) (by norm_num)
    (by norm_num) (by norm_num) (dvd_zero _)

/-! ### Claim C4 -/

/-- C4 counterexample.  The claim asserts that with master_lanes = 4,
slave_lanes = 2, for a size-2 len-0 read the predictor produces exactly two
slave-width beats.  The expected-response walk of `gen_new_rd_trans` runs at
master granularity (`m_size = rd_req_m.size`, pointer modulo `RD_M_LANES`),
so it closes after `2^2 = 4` bytes: it produces exactly one beat, not two
(the slave lane count does not enter the read predictor at all). -/
theorem C4_counterexample :
    (rd_expected_beats 4 (fun _ => 0) ⟨0, 0, 1, 0, 2⟩).length ≠ 2 := by decide

/-- C4 (amended): with master_lanes = 4 and slave_lanes = 2, for a read of
size 2, len 0 and 4-aligned address, the scoreboard's slave-side equivalent
request is indeed the (size=1, len=1) rescale, but the predictor produces
exactly ONE master-width beat, whose bytes in order are [0, 1, 2, 3]. -/
theorem C4_single_master_beat (resolve : Nat → Nat) (addr tid burst : Nat)
    (ha : 4 ∣ addr) (hb : burst < 3) :
    (rd_slave_equiv 2 ⟨tid, addr, burst, 0, 2⟩).size = 1 ∧
    (rd_slave_equiv 2 ⟨tid, addr, burst, 0, 2⟩).len = 1 ∧
    (rd_expected_beats 4 resolve ⟨tid, addr, burst, 0, 2⟩).length = 1 ∧
    rdBeatBytes (rd_expected_beats 4 resolve ⟨tid, addr, burst, 0, 2⟩) =
      [0, 1, 2, 3] := by
  have hz : addr % 4 = 0 := Nat.mod_eq_zero_of_dvd ha
  have hm2 : my_log2c 2 = 1 := by simpa using my_log2c_two_pow 1
  refine ⟨?_, ?_, ?_, ?_⟩
  · simp [rd_slave_equiv, hm2]
  · simp [rd_slave_equiv, hm2]
  · unfold rd_expected_beats
    dsimp only
    rw [hz]
    rcases hf : decide (burst = AXBURST_FIXED) <;> simp [rdLoop, hf]
  · unfold rd_expected_beats
    dsimp only
    rw [hz]
    rcases hf : decide (burst = AXBURST_FIXED) <;>
      simp [rdLoop, hf, rdBeatBytes, beatBytes, placedBytes] <;> decide

/-- C4 witness: address 8, INCR burst. -/
theorem C4_single_master_beat_witness :
    (rd_slave_equiv 2 ⟨2, 8, 1, 0, 2⟩).size = 1 ∧
    (rd_slave_equiv 2 ⟨2, 8, 1, 0, 2⟩).len = 1 ∧
    (rd_expected_beats 4 (fun _ => 7) ⟨2, 8, 1, 0, 2⟩).length = 1 ∧
    rdBeatBytes (rd_expected_beats 4 (fun _ => 7) ⟨2, 8, 1, 0, 2⟩) = [0, 1, 2, 3] :=
  C4_single_master_beat (fun _ => 7) 8 2 1 (by norm_num) (by norm_num)

/-! ### Claim C2 -/

/-- C2 counterexample.  The claim asserts that whenever
`master_lanes > slave_lanes` the slave-side equivalent has
`size = log2(slave_lanes)`.  With `master_lanes = 8 > slave_lanes = 4` the
generator (all random draws 0) produces a read transaction of size 1; its
beat width `2^1 = 2` does not exceed the 4 slave lanes, so
`gen_new_rd_trans` keeps `size = 1`, while the claim demands
`log2(4) = 2`. -/
theorem C2_counterexample :
    (gen_new_rd_trans 8 4 (fun _ => 0) 0).req_s.size ≠ my_log2c 4 := by
  have h8 : my_log2c 8 = 3 := by simpa using my_log2c_two_pow 3
  have h4 : my_log2c 4 = 2 := by simpa using my_log2c_two_pow 2
  simp only [gen_new_rd_trans, rd_slave_equiv, h8, h4, AXI_TID_NUM, AXI_BURST_NUM,
    AXI4_MAX_LEN, AXI4_MAX_INCR_LEN, AXBURST_WRAP, AXBURST_FIXED]
  decide

/-- C2 (amended): the downsizing rescale applies when the transaction's
beat width `2^size` exceeds the slave lane count (not whenever
`master_lanes > slave_lanes`); in that case the slave-side request has
`size = log2(slave_lanes)` and
`len = ((len+1) << (size - log2 slave_lanes)) - 1`; and the slave-side
(size, len) computation is the same pure function of (master len, master
size, slave lane count) in `gen_new_rd_trans` (lines 252-257) and
`gen_new_wr_trans` (lines 354-366). -/
theorem C2_slave_equiv (sLanes : Nat) (m : TbAddr) (h : 1 <<< m.size > sLanes) :
    ((rd_slave_equiv sLanes m).size = my_log2c sLanes ∧
      (rd_slave_equiv sLanes m).len =
        ((m.len + 1) <<< (m.size - my_log2c sLanes)) - 1) ∧
    ∀ (s : Nat) (x : TbAddr), rd_slave_equiv s x = wr_slave_equiv s x := by
  constructor
  · simp [rd_slave_equiv, if_pos h]
  · intro s x
    by_cases hc : 1 <<< x.size > s <;>
      simp [rd_slave_equiv, wr_slave_equiv, wr_s_size, wr_s_len, hc]

/-- C2 witness: a size-2 transaction against 2 slave lanes. -/
theorem C2_slave_equiv_witness :
    ((rd_slave_equiv 2 ⟨0, 0, 1, 3, 2⟩).size = my_log2c 2 ∧
      (rd_slave_equiv 2 ⟨0, 0, 1, 3, 2⟩).len =
        (((3 : Nat) + 1) <<< (2 - my_log2c 2)) - 1) ∧
    ∀ (s : Nat) (x : TbAddr), rd_slave_equiv s x = wr_slave_equiv s x :=
  C2_slave_equiv 2 ⟨0, 0, 1, 3, 2⟩ (by decide)

/-! ### Claim C5 -/

/-- C5 counterexample.  The claim asserts every present field of a
default-constructed payload is zero; but `WritePayload()` sets
`wstrb = ~0`: with 64-bit data and strobes enabled (`WSTRB_WIDTH = 8`) the
default strobe field is 255, not 0. -/
theorem C5_counterexample : (mkWritePayload cfgEx).wstrb ≠ some 0 := by decide

/-- C5 (amended): default construction of every payload type is
deterministic and total (the constructors are total functions — they
cannot fail), and every field present under the configuration is zero,
except `WritePayload::wstrb`, which is present iff `WSTRB_WIDTH > 0` and is
then initialised to all ones (`2^WSTRB_WIDTH - 1`, the value of `~0` in a
`WSTRB_WIDTH`-bit unsigned field). -/
theorem C5_default_payloads (c : AceCfg) :
    (∀ v ∈ addrPayloadFields (mkAddrPayload c), v = 0) ∧
    (∀ v ∈ readPayloadFields (mkReadPayload c), v = 0) ∧
    (∀ v ∈ wrespPayloadFields (mkWRespPayload c), v = 0) ∧
    (∀ v ∈ writePayloadFieldsNoStrb (mkWritePayload c), v = 0) ∧
    ((mkWritePayload c).wstrb = none ↔ ¬ WSTRB_WIDTH c > 0) ∧
    (WSTRB_WIDTH c > 0 → (mkWritePayload c).wstrb = some (2 ^ WSTRB_WIDTH c - 1)) := by
  refine ⟨?_, ?_, ?_, ?_, ?_, ?_⟩
  · apply optZero_mem
    intro o ho
    simp only [addrPayloadFields, mkAddrPayload, List.mem_cons, List.not_mem_nil,
      or_false] at ho
    rcases ho with rfl | rfl | rfl | rfl | rfl | rfl | rfl | rfl | rfl | rfl | rfl
    all_goals first
      | exact Or.inr rfl
      | exact optZero_if _
  · apply optZero_mem
    intro o ho
    simp only [readPayloadFields, mkReadPayload, List.mem_cons, List.not_mem_nil,
      or_false] at ho
    rcases ho with rfl | rfl | rfl | rfl | rfl
    all_goals first
      | exact Or.inr rfl
      | exact optZero_if _
  · apply optZero_mem
    intro o ho
    simp only [wrespPayloadFields, mkWRespPayload, List.mem_cons, List.not_mem_nil,
      or_false] at ho
    rcases ho with rfl | rfl | rfl
    all_goals first
      | exact Or.inr rfl
      | exact optZero_if _
  · apply optZero_mem
    intro o ho
    simp only [writePayloadFieldsNoStrb, mkWritePayload, List.mem_cons,
      List.not_mem_nil, or_false] at ho
    rcases ho with rfl | rfl | rfl
    all_goals first
      | exact Or.inr rfl
      | exact optZero_if _
  · simp only [mkWritePayload]
    split_ifs with h <;> simp [h]
  · intro h
    simp [mkWritePayload, if_pos h]

/-! ### Claim C6 -/

/-- C6: the reorder check of `verify_rd_resp` / `verify_wr_resp` scans the
order queue from the front for the oldest entry with matching id; if none
exists, the status is 2 and the queue is unchanged; if the oldest matching
entry is `e`, the status is 0 when the resolved destination of `e` equals
the response's `resp` field and 1 otherwise, and `e` is erased exactly when
the terminal beat is observed: for reads only when the response's `last`
flag is set, for writes always. -/
theorem C6_reorder_check (resolve : Nat → Nat) (rcvR : TbRd) (rcvW : TbWResp)
    (pre post q : List TbAddr) (e : TbAddr) :
    ((∀ x ∈ pre, x.id ≠ rcvR.id) → e.id = rcvR.id →
      rd_reorder_scan resolve rcvR (pre ++ e :: post) =
        ((if resolve e.addr = rcvR.resp then 0 else 1),
         if rcvR.last then pre ++ post else pre ++ e :: post)) ∧
    ((∀ x ∈ q, x.id ≠ rcvR.id) → rd_reorder_scan resolve rcvR q = (2, q)) ∧
    ((∀ x ∈ pre, x.id ≠ rcvW.id) → e.id = rcvW.id →
      wr_reorder_scan resolve rcvW (pre ++ e :: post) =
        ((if resolve e.addr = rcvW.resp then 0 else 1), pre ++ post)) ∧
    ((∀ x ∈ q, x.id ≠ rcvW.id) → wr_reorder_scan resolve rcvW q = (2, q)) :=
  ⟨fun hpre he => rd_reorder_scan_found resolve rcvR e post pre hpre he,
   fun hq => rd_reorder_scan_not_found resolve rcvR q hq,
   fun hpre he => wr_reorder_scan_found resolve rcvW e post pre hpre he,
   fun hq => wr_reorder_scan_not_found resolve rcvW q hq⟩

/-- C6 witness: a matching read response (status 0, `last` set, entry
erased past one non-matching older entry) and the corresponding write
response; plus the not-found case on an id-free queue. -/
theorem C6_reorder_check_witness :
    rd_reorder_scan (fun a => a) ⟨5, 0, 7, true⟩
        ([⟨1, 3, 0, 0, 0⟩] ++ ⟨5, 7, 1, 0, 2⟩ :: [⟨2, 9, 0, 0, 0⟩]) =
      (0, [⟨1, 3, 0, 0, 0⟩] ++ [⟨2, 9, 0, 0, 0⟩]) ∧
    rd_reorder_scan (fun a => a) ⟨5, 0, 7, true⟩ [⟨1, 3, 0, 0, 0⟩] =
      (2, [⟨1, 3, 0, 0, 0⟩]) ∧
    wr_reorder_scan (fun a => a) ⟨5, 7⟩
        ([⟨1, 3, 0, 0, 0⟩] ++ ⟨5, 7, 1, 0, 2⟩ :: [⟨2, 9, 0, 0, 0⟩]) =
      (0, [⟨1, 3, 0, 0, 0⟩] ++ [⟨2, 9, 0, 0, 0⟩]) ∧
    wr_reorder_scan (fun a => a) ⟨5, 7⟩ [⟨1, 3, 0, 0, 0⟩] =
      (2, [⟨1, 3, 0, 0, 0⟩]) := by
  have h := C6_reorder_check (fun a => a) ⟨5, 0, 7, true⟩ ⟨5, 7⟩
    [⟨1, 3, 0, 0, 0⟩] [⟨2, 9, 0, 0, 0⟩] [⟨1, 3, 0, 0, 0⟩] ⟨5, 7, 1, 0, 2⟩
  refine ⟨?_, h.2.1 (by decide), ?_, h.2.2.2 (by decide)⟩
  · have := h.1 (by decide) rfl
    simpa using this
  · have := h.2.2.1 (by decide) rfl
    simpa using this

/-! ### Claim C7 -/

/-- C7: in both verifiers, `sc_assert(0)` fires exactly when no prediction
matches the received response or the reorder status is nonzero (reordered,
or request not found); the not-found error counter is incremented exactly
in the no-matching-prediction case (before the assertion); and the
ejected-response counter is incremented exactly when no fatal assertion
fires. -/
theorem C7_fatal_outcomes (idW : Nat) (resolve : Nat → Nat) (oq : List TbAddr)
    (rq : List TbRd) (rcv : TbRd) (rqw : List TbWResp) (rcvw : TbWResp) :
    ((verify_rd_resp idW resolve oq rq rcv).fatal = true ↔
      ((∀ sb ∈ rq, eq_rd_data idW rcv sb = false) ∨
        (rd_reorder_scan resolve rcv oq).1 ≠ 0)) ∧
    ((verify_rd_resp idW resolve oq rq rcv).err_inc = true ↔
      (∀ sb ∈ rq, eq_rd_data idW rcv sb = false)) ∧
    ((verify_rd_resp idW resolve oq rq rcv).ej_inc = true ↔
      (verify_rd_resp idW resolve oq rq rcv).fatal = false) ∧
    ((verify_wr_resp idW resolve oq rqw rcvw).fatal = true ↔
      ((∀ sb ∈ rqw, eq_wr_resp idW sb rcvw = false) ∨
        (wr_reorder_scan resolve rcvw oq).1 ≠ 0)) ∧
    ((verify_wr_resp idW resolve oq rqw rcvw).err_inc = true ↔
      (∀ sb ∈ rqw, eq_wr_resp idW sb rcvw = false)) ∧
    ((verify_wr_resp idW resolve oq rqw rcvw).ej_inc = true ↔
      (verify_wr_resp idW resolve oq rqw rcvw).fatal = false) := by
  have hrd := rd_content_scan_false_iff idW rcv rq
  have hwr := wr_content_scan_false_iff idW rcvw rqw
  have hrc := rd_reorder_scan_cases resolve rcv oq
  have hwc := wr_reorder_scan_cases resolve rcvw oq
  unfold verify_rd_resp verify_wr_resp
  rw [← hrd, ← hwr]
  rcases hf : (rd_content_scan idW rcv rq).1 <;>
    rcases hg : (wr_content_scan idW rcvw rqw).1 <;>
      rcases hrc with h1 | h1 | h1 <;> rcases hwc with h2 | h2 | h2 <;>
        simp [hf, hg, h1, h2]

/-! ### Claim C8 -/

/-- C8: for any lane count `2^L` (`L ≥ 1`) and any random draws, the
generated `size` of both `gen_new_rd_trans` and `gen_new_wr_trans` — the
expression `((rand()%my_log2c(LANES))+1) & ((1<<my_log2c(LANES))-1)` of
axi_master.h lines 233 and 321 — lies in `[1, L]`; in particular size 0 is
never generated.  (For any `L ≤ 7` the value also fits the 3-bit AxSIZE
field unchanged.) -/
theorem C8_size_range (L mLanes sLanes : Nat) (rnd : Nat → Nat) (a : Nat)
    (hM : mLanes = 2 ^ L) (hL : 1 ≤ L) :
    (1 ≤ (gen_new_rd_trans mLanes sLanes rnd a).req.size ∧
      (gen_new_rd_trans mLanes sLanes rnd a).req.size ≤ L) ∧
    (1 ≤ (gen_new_wr_trans mLanes sLanes rnd a).req.size ∧
      (gen_new_wr_trans mLanes sLanes rnd a).req.size ≤ L) := by
  subst hM
  have key := size_expr_range L (rnd 1) hL
  constructor
  · simpa [gen_new_rd_trans, my_log2c_two_pow, Nat.one_shiftLeft] using key
  · simpa [gen_new_wr_trans, my_log2c_two_pow, Nat.one_shiftLeft] using key

/-- C8 witness: four master lanes. -/
theorem C8_size_range_witness :
    (1 ≤ (gen_new_rd_trans 4 4 (fun _ => 7) 0).req.size ∧
      (gen_new_rd_trans 4 4 (fun _ => 7) 0).req.size ≤ 2) ∧
    (1 ≤ (gen_new_wr_trans 4 4 (fun _ => 7) 0).req.size ∧
      (gen_new_wr_trans 4 4 (fun _ => 7) 0).req.size ≤ 2) :=
  C8_size_range 2 4 4 (fun _ => 7) 0 (by norm_num) (by norm_num)

/-! ### Claim C10 -/

/-- C10: for a power-of-two lane count dividing 0x10000 and a running
address counter that is a multiple of the lane count, both generators emit
an address that is a multiple of the lane count (so the predictor's initial
lane pointer `addr % lanes` is 0) and advance the counter by exactly the
lane count (preserving the invariant from its initial value 0). -/
theorem C10_addr_aligned (L mLanes sLanes : Nat) (rnd : Nat → Nat) (a : Nat)
    (hM : mLanes = 2 ^ L) (hL : L ≤ 16) (ha : mLanes ∣ a) :
    ((gen_new_rd_trans mLanes sLanes rnd a).req.addr % mLanes = 0 ∧
      (gen_new_rd_trans mLanes sLanes rnd a).gen_addr = a + mLanes) ∧
    ((gen_new_wr_trans mLanes sLanes rnd a).req.addr % mLanes = 0 ∧
      (gen_new_wr_trans mLanes sLanes rnd a).gen_addr = a + mLanes) := by
  have hoff : mLanes ∣ 0x10000 := by
    rw [hM]
    have : (0x10000 : Nat) = 2 ^ 16 := by norm_num
    rw [this]
    exact pow_dvd_pow 2 hL
  have hdvd : ∀ b : Nat, mLanes ∣ b → (if rnd 5 % 2 = 1 then b else b + 0x10000) % mLanes = 0 := by
    intro b hb
    split_ifs
    · exact Nat.mod_eq_zero_of_dvd hb
    · exact Nat.mod_eq_zero_of_dvd (Nat.dvd_add hb hoff)
  exact ⟨⟨hdvd a ha, rfl⟩, ⟨hdvd a ha, rfl⟩⟩

/-- C10 witness: sixteen lanes, counter at 0x40. -/
theorem C10_addr_aligned_witness :
    ((gen_new_rd_trans 16 4 (fun _ => 3) 0x40).req.addr % 16 = 0 ∧
      (gen_new_rd_trans 16 4 (fun _ => 3) 0x40).gen_addr = 0x40 + 16) ∧
    ((gen_new_wr_trans 16 4 (fun _ => 3) 0x40).req.addr % 16 = 0 ∧
      (gen_new_wr_trans 16 4 (fun _ => 3) 0x40).gen_addr = 0x40 + 16) :=
  C10_addr_aligned 4 16 4 (fun _ => 3) 0x40 (by norm_num) (by norm_num) (by norm_num)

/-! ### Claim C9 -/

/-- C9: one-call characterisation of `nb_wread`.  It returns true iff a
data beat was consumed on that call (the W queue advances exactly then);
while `got_waddr` is set it pops no further address (the AW queue is
untouched and the stored address is returned); after the call `got_waddr`
holds exactly when an address has been consumed — on this call or a
previous one — whose paired data beat has not yet been consumed; and
`got_waddr` is cleared exactly when the call returns true. -/
theorem C9_nb_wread_protocol (g : Bool) (st : AceAddrPayload)
    (awq : List AceAddrPayload) (wq : List AceWritePayload) :
    (nb_wread g st awq wq).ret = ((g || !awq.isEmpty) && !wq.isEmpty) ∧
    (nb_wread g st awq wq).awq = (if g then awq else awq.tail) ∧
    (nb_wread g st awq wq).addr = (if g then some st else awq.head?) ∧
    (nb_wread g st awq wq).data = (if g || !awq.isEmpty then wq.head? else none) ∧
    (nb_wread g st awq wq).wq =
      (if (g || !awq.isEmpty) && !wq.isEmpty then wq.tail else wq) ∧
    (nb_wread g st awq wq).got_waddr = ((g || !awq.isEmpty) && wq.isEmpty) ∧
    (nb_wread g st awq wq).stored_waddr = (if g then st else awq.head?.getD st) := by
  cases g <;> cases awq <;> cases wq <;> simp [nb_wread]

end NoCpad
